import Mathlib

/-
Verification of the url-shortener core: a shallow embedding of the domain
record, the in-memory repository and the URL service, translated from the
Go sources (internal/domain, internal/repository, internal/service,
internal/shortcode).

Modelling conventions:
* `time.Time` instants and `time.Duration` values are Int nanoseconds
  (Go durations are int64 nanoseconds); `time.Time{}` (the zero value used
  as the "never accessed" sentinel) is 0.
* A `context.Context` is represented by the one bit the repository reads
  from it: whether `ctx.Done()` has fired.  `canceled = true` models an
  already-canceled context, and `ctx.Err()` is the `Canceled` error.
* The Go map `map[string]*URLRecord` is an association list together with
  first-match lookup; Go maps never hold duplicate keys, and every
  operation below preserves that discipline.
* `crypto/rand`'s `rand.Int(rand.Reader, alphabetLen)` is modelled by an
  oracle `draw : Nat → Nat` whose values are below the alphabet length,
  matching the contract of `rand.Int`.
-/

namespace UrlShortener

/-- The sentinel errors of `internal/domain/errors.go`, plus the context
cancellation error and the `errors.New("max retries exceeded…")` failure of
`URLService.Create`. -/
inductive Err where
  | NotFound
  | CodeExists
  | Expired
  | Canceled
  | RetriesExhausted
deriving DecidableEq, Repr

/-- `domain.URLRecord` (internal/domain, part_007). -/
structure URLRecord where
  ShortCode : String
  LongURL : String
  CreatedAt : Int
  ExpiresAt : Int
  ClickCount : Int
  LastAccessedAt : Int
deriving DecidableEq, Repr

/-- `URLRecord.IsExpired`: Go `now.After(r.ExpiresAt)`, i.e. strictly
after. -/
def URLRecord.IsExpired (r : URLRecord) (now : Int) : Bool :=
  decide (r.ExpiresAt < now)

/-- `URLRecord.Clone`: field-by-field deep copy. -/
def URLRecord.Clone (r : URLRecord) : URLRecord :=
  { ShortCode := r.ShortCode
    LongURL := r.LongURL
    CreatedAt := r.CreatedAt
    ExpiresAt := r.ExpiresAt
    ClickCount := r.ClickCount
    LastAccessedAt := r.LastAccessedAt }

/-- First-match lookup in the association list modelling the Go map
`r.data[code]`. -/
def lookupCode : List (String × URLRecord) → String → Option URLRecord
  | [], _ => none
  | p :: rest, code => if p.1 = code then some p.2 else lookupCode rest code

/-- `repository.MemoryRepository` (state only; the mutex serialises the
operations, which the sequential embedding captures by construction). -/
structure MemoryRepository where
  data : List (String × URLRecord)
deriving DecidableEq, Repr

/-- `MemoryRepository.SaveIfNotExists` (part_010 lines 26–42). -/
def MemoryRepository.SaveIfNotExists (r : MemoryRepository) (canceled : Bool)
    (record : URLRecord) : Except Err Unit × MemoryRepository :=
  if canceled then (.error .Canceled, r)
  else
    match lookupCode r.data record.ShortCode with
    | some _ => (.error .CodeExists, r)
    | none => (.ok (), ⟨(record.ShortCode, record.Clone) :: r.data⟩)

/-- `MemoryRepository.FindByShortCode` (part_010 lines 45–61). -/
def MemoryRepository.FindByShortCode (r : MemoryRepository) (canceled : Bool)
    (code : String) : Except Err URLRecord × MemoryRepository :=
  if canceled then (.error .Canceled, r)
  else
    match lookupCode r.data code with
    | none => (.error .NotFound, r)
    | some record => (.ok record.Clone, r)

/-- `MemoryRepository.IncrementClickCount` (part_010 lines 64–82): mutates
the stored entry in place. -/
def MemoryRepository.IncrementClickCount (r : MemoryRepository) (canceled : Bool)
    (code : String) (accessTime : Int) : Except Err Unit × MemoryRepository :=
  if canceled then (.error .Canceled, r)
  else
    match lookupCode r.data code with
    | none => (.error .NotFound, r)
    | some _ =>
      (.ok (), ⟨r.data.map fun p =>
        if p.1 = code then
          (p.1, { p.2 with
                    ClickCount := p.2.ClickCount + 1
                    LastAccessedAt := accessTime })
        else p⟩)

/-- `MemoryRepository.DeleteExpired` (part_010 lines 85–104): removes every
record with `ExpiresAt.Before(before)` and counts the removals. -/
def MemoryRepository.DeleteExpired (r : MemoryRepository) (canceled : Bool)
    (before : Int) : Except Err Int × MemoryRepository :=
  if canceled then (.error .Canceled, r)
  else
    ((.ok ((r.data.filter fun p => decide (p.2.ExpiresAt < before)).length : Int)),
     ⟨r.data.filter fun p => ! decide (p.2.ExpiresAt < before)⟩)

/-- `maxRetries` of internal/service/url_service.go. -/
def maxRetries : Nat := 5

/-- `defaultTTL = 24 * time.Hour` in nanoseconds. -/
def defaultTTL : Int := 24 * 60 * 60 * 1000000000

/-- The record literal built on each attempt of `URLService.Create`
(url_service.go lines 62–69); `LastAccessedAt` is the `time.Time{}`
sentinel. -/
def newRecord (code longURL : String) (now ttl : Int) : URLRecord :=
  { ShortCode := code
    LongURL := longURL
    CreatedAt := now
    ExpiresAt := now + ttl
    ClickCount := 0
    LastAccessedAt := 0 }

/-- The retry loop of `URLService.Create` (url_service.go lines 59–83).
`gen k` is the code produced by `s.generator.Generate()` on attempt `k`;
the fuel argument counts the remaining attempts.  Besides the Go function's
result and the repository state, the embedding also returns the number of
`SaveIfNotExists` calls the loop performed, so that attempt counts can be
stated. -/
def createAttempts (canceled : Bool) (gen : Nat → String) (longURL : String)
    (now ttl : Int) :
    MemoryRepository → Nat → Nat → (Except Err URLRecord × MemoryRepository) × Nat
  | repo, _, 0 => ((.error .RetriesExhausted, repo), 0)
  | repo, attempt, n + 1 =>
    let record := newRecord (gen attempt) longURL now ttl
    match repo.SaveIfNotExists canceled record with
    | (.ok _, repo') => ((.ok record, repo'), 1)
    | (.error e, repo') =>
      if e = .CodeExists then
        let rest := createAttempts canceled gen longURL now ttl repo' (attempt + 1) n
        (rest.1, rest.2 + 1)
      else ((.error e, repo'), 1)

/-- `URLService.Create` (url_service.go lines 52–84): default the TTL when
it is zero, then run the retry loop with `maxRetries` attempts. -/
def Create (repo : MemoryRepository) (canceled : Bool) (gen : Nat → String)
    (longURL : String) (ttl now : Int) : Except Err URLRecord × MemoryRepository :=
  (createAttempts canceled gen longURL now (if ttl = 0 then defaultTTL else ttl)
    repo 0 maxRetries).1

/-- Number of `SaveIfNotExists` calls a `Create` call performs. -/
def CreateSaveCalls (repo : MemoryRepository) (canceled : Bool) (gen : Nat → String)
    (longURL : String) (ttl now : Int) : Nat :=
  (createAttempts canceled gen longURL now (if ttl = 0 then defaultTTL else ttl)
    repo 0 maxRetries).2

/-- `URLService.Resolve` (url_service.go lines 89–104).  `now` is the
clock sample used for the expiry check and `nowIncr` the later sample
passed to the click-count increment; the increment's error is discarded
(the Go `_ =`). -/
def Resolve (repo : MemoryRepository) (canceled : Bool) (code : String)
    (now nowIncr : Int) : Except Err String × MemoryRepository :=
  match repo.FindByShortCode canceled code with
  | (.error e, r) => (.error e, r)
  | (.ok record, r) =>
    if record.IsExpired now then (.error .Expired, r)
    else (.ok record.LongURL, (r.IncrementClickCount canceled code nowIncr).2)

/-- The control flow of `URLService.Resolve` stated against the
`repository.Repository` interface: the lookup outcome and the increment
outcome are arbitrary parameters, and the returned value matches how the
service combines them (the increment result is discarded). -/
def resolveFromResults (findResult : Except Err URLRecord) (now : Int)
    (incrResult : Except Err Unit) : Except Err String :=
  match findResult with
  | .error e => .error e
  | .ok record =>
    if record.IsExpired now then .error .Expired
    else
      match incrResult with
      | _ => .ok record.LongURL

/-- `URLService.GetStats` (url_service.go lines 108–119). -/
def GetStats (repo : MemoryRepository) (canceled : Bool) (now : Int)
    (code : String) : Except Err URLRecord × MemoryRepository :=
  match repo.FindByShortCode canceled code with
  | (.error e, r) => (.error e, r)
  | (.ok record, r) =>
    if record.IsExpired now then (.error .Expired, r)
    else (.ok record, r)

/-- The generator alphabet of internal/shortcode/generator.go. -/
def alphabet : String := "23456789ABCDEFGHJKLMNPQRSTUVWXYZabcdefghijkmnopqrstuvwxyz"

/-- `codeLength` of internal/shortcode/generator.go. -/
def codeLength : Nat := 8

/-- `Generator.Generate` (generator.go lines 28–42): one character per
position, each indexed by a fresh `rand.Int(rand.Reader, alphabetLen)`
draw; `draw i` models the `i`-th draw, always below the alphabet length
per `rand.Int`'s contract. -/
def generate (draw : Nat → Nat) : String :=
  String.mk ((List.range codeLength).map fun i => alphabet.toList.getD (draw i) 'X')

end UrlShortener

deriving instance DecidableEq for Except

namespace UrlShortener

/-! ## Helper lemmas -/

theorem URLRecord.clone_eq (r : URLRecord) : r.Clone = r := rfl

theorem save_canceled (repo : MemoryRepository) (record : URLRecord) :
    repo.SaveIfNotExists true record = (.error .Canceled, repo) := rfl

theorem save_absent (repo : MemoryRepository) (record : URLRecord)
    (hl : lookupCode repo.data record.ShortCode = none) :
    repo.SaveIfNotExists false record
      = (.ok (), ⟨(record.ShortCode, record.Clone) :: repo.data⟩) := by
  unfold MemoryRepository.SaveIfNotExists
  rw [hl]
  rfl

theorem save_present (repo : MemoryRepository) (record old : URLRecord)
    (hl : lookupCode repo.data record.ShortCode = some old) :
    repo.SaveIfNotExists false record = (.error .CodeExists, repo) := by
  unfold MemoryRepository.SaveIfNotExists
  rw [hl]
  rfl

theorem find_canceled (repo : MemoryRepository) (code : String) :
    repo.FindByShortCode true code = (.error .Canceled, repo) := rfl

theorem find_absent (repo : MemoryRepository) (code : String)
    (hl : lookupCode repo.data code = none) :
    repo.FindByShortCode false code = (.error .NotFound, repo) := by
  unfold MemoryRepository.FindByShortCode
  rw [hl]
  rfl

theorem find_present (repo : MemoryRepository) (code : String) (old : URLRecord)
    (hl : lookupCode repo.data code = some old) :
    repo.FindByShortCode false code = (.ok old.Clone, repo) := by
  unfold MemoryRepository.FindByShortCode
  rw [hl]
  rfl

theorem findByShortCode_snd (repo : MemoryRepository) (canceled : Bool)
    (code : String) : (repo.FindByShortCode canceled code).2 = repo := by
  cases canceled with
  | true => rfl
  | false =>
    cases hl : lookupCode repo.data code with
    | none => rw [find_absent repo code hl]
    | some old => rw [find_present repo code old hl]

theorem findByShortCode_error_cases (repo : MemoryRepository) (canceled : Bool)
    (code : String) (e : Err) (h : (repo.FindByShortCode canceled code).1 = .error e) :
    e = .NotFound ∨ e = .Canceled := by
  cases canceled with
  | true =>
    rw [find_canceled repo code] at h
    exact Or.inr (Except.error.inj h).symm
  | false =>
    cases hl : lookupCode repo.data code with
    | none =>
      rw [find_absent repo code hl] at h
      exact Or.inl (Except.error.inj h).symm
    | some old =>
      rw [find_present repo code old hl] at h
      exact absurd h (by simp)

theorem incr_canceled (repo : MemoryRepository) (code : String) (accessTime : Int) :
    repo.IncrementClickCount true code accessTime = (.error .Canceled, repo) := rfl

theorem incr_absent (repo : MemoryRepository) (code : String) (accessTime : Int)
    (hl : lookupCode repo.data code = none) :
    repo.IncrementClickCount false code accessTime = (.error .NotFound, repo) := by
  unfold MemoryRepository.IncrementClickCount
  rw [hl]
  rfl

theorem incr_present (repo : MemoryRepository) (code : String) (accessTime : Int)
    (old : URLRecord) (hl : lookupCode repo.data code = some old) :
    repo.IncrementClickCount false code accessTime
      = (.ok (), ⟨repo.data.map fun p =>
          if p.1 = code then
            (p.1, { p.2 with
                      ClickCount := p.2.ClickCount + 1
                      LastAccessedAt := accessTime })
          else p⟩) := by
  unfold MemoryRepository.IncrementClickCount
  rw [hl]
  rfl

theorem delete_canceled (repo : MemoryRepository) (before : Int) :
    repo.DeleteExpired true before = (.error .Canceled, repo) := rfl

theorem delete_run (repo : MemoryRepository) (before : Int) :
    repo.DeleteExpired false before
      = (.ok ((repo.data.filter fun p => decide (p.2.ExpiresAt < before)).length : Int),
         ⟨repo.data.filter fun p => ! decide (p.2.ExpiresAt < before)⟩) := rfl

theorem saveIfNotExists_ok_data (repo repo2 : MemoryRepository) (canceled : Bool)
    (record : URLRecord) (u : Unit)
    (h : repo.SaveIfNotExists canceled record = (.ok u, repo2)) :
    repo2.data = (record.ShortCode, record.Clone) :: repo.data := by
  cases canceled with
  | true =>
    rw [save_canceled repo record] at h
    exact Except.noConfusion (congrArg Prod.fst h)
  | false =>
    cases hl : lookupCode repo.data record.ShortCode with
    | some old =>
      rw [save_present repo record old hl] at h
      exact Except.noConfusion (congrArg Prod.fst h)
    | none =>
      rw [save_absent repo record hl] at h
      have h2 : MemoryRepository.mk ((record.ShortCode, record.Clone) :: repo.data)
          = repo2 := congrArg Prod.snd h
      rw [← h2]

theorem saveIfNotExists_error_frame (repo repo2 : MemoryRepository) (canceled : Bool)
    (record : URLRecord) (e : Err)
    (h : repo.SaveIfNotExists canceled record = (.error e, repo2)) : repo2 = repo := by
  cases canceled with
  | true =>
    rw [save_canceled repo record] at h
    exact (congrArg Prod.snd h).symm
  | false =>
    cases hl : lookupCode repo.data record.ShortCode with
    | some old =>
      rw [save_present repo record old hl] at h
      exact (congrArg Prod.snd h).symm
    | none =>
      rw [save_absent repo record hl] at h
      exact Except.noConfusion (congrArg Prod.fst h)

theorem lookupCode_map_update (l : List (String × URLRecord)) (code c : String)
    (f : URLRecord → URLRecord) :
    lookupCode (l.map fun p => if p.1 = code then (p.1, f p.2) else p) c
      = if c = code then (lookupCode l c).map f else lookupCode l c := by
  induction l with
  | nil => by_cases h : c = code <;> simp [lookupCode, h]
  | cons p rest ih =>
    by_cases h1 : p.1 = code
    · by_cases h2 : p.1 = c
      · have hcc : c = code := by rw [← h2, h1]
        simp [lookupCode, h1, h2, hcc]
      · have hne : ¬ code = c := fun hh => h2 (by rw [h1, hh])
        have hne2 : ¬ c = code := fun hh => hne hh.symm
        simp [lookupCode, h1, h2, hne, hne2, ih]
    · by_cases h2 : p.1 = c
      · have hcc : ¬ c = code := by rw [← h2]; exact h1
        simp [lookupCode, h1, h2, hcc]
      · simp [lookupCode, h1, h2, ih]

theorem filter_length_split (l : List (String × URLRecord))
    (p : (String × URLRecord) → Bool) :
    (l.filter p).length + (l.filter fun x => ! p x).length = l.length := by
  induction l with
  | nil => rfl
  | cons a t ih => cases hp : p a <;> simp [List.filter_cons, hp] <;> omega

/-! ## Claim theorems -/

/-- Claim C1: `SaveIfNotExists` succeeds and stores a copy of the record
iff no entry with the same short code exists; otherwise it fails with
`AlreadyExists` (`domain.ErrCodeExists`) and leaves the store unchanged. -/
theorem saveIfNotExists_insert_iff_absent (repo : MemoryRepository)
    (record : URLRecord) :
    ((repo.SaveIfNotExists false record).1 = .ok () ↔
      lookupCode repo.data record.ShortCode = none) ∧
    (lookupCode repo.data record.ShortCode = none →
      repo.SaveIfNotExists false record
        = (.ok (), ⟨(record.ShortCode, record.Clone) :: repo.data⟩)) ∧
    (∀ old, lookupCode repo.data record.ShortCode = some old →
      repo.SaveIfNotExists false record = (.error .CodeExists, repo)) := by
  cases hl : lookupCode repo.data record.ShortCode with
  | none =>
    refine ⟨⟨fun _ => rfl, fun _ => ?_⟩, fun _ => save_absent repo record hl, ?_⟩
    · rw [save_absent repo record hl]
    · intro old hold
      exact Option.noConfusion hold
  | some old =>
    refine ⟨⟨fun h => ?_, fun h => ?_⟩, fun h => ?_,
      fun old2 _ => save_present repo record old hl⟩
    · rw [save_present repo record old hl] at h
      exact Except.noConfusion h
    · exact Option.noConfusion h
    · exact Option.noConfusion h

/-- Witness for C1 at concrete inputs: a fresh code is inserted as a copy,
and a colliding insert fails with `CodeExists` leaving the store unchanged. -/
theorem saveIfNotExists_insert_iff_absent_witness :
    MemoryRepository.SaveIfNotExists ⟨[]⟩ false ⟨"ab", "u", 0, 1, 0, 0⟩
      = (.ok (), ⟨[("ab", ⟨"ab", "u", 0, 1, 0, 0⟩)]⟩) ∧
    MemoryRepository.SaveIfNotExists ⟨[("ab", ⟨"ab", "u", 0, 1, 0, 0⟩)]⟩ false
        ⟨"ab", "u2", 5, 9, 0, 0⟩
      = (.error .CodeExists, ⟨[("ab", ⟨"ab", "u", 0, 1, 0, 0⟩)]⟩) :=
  ⟨(saveIfNotExists_insert_iff_absent ⟨[]⟩ ⟨"ab", "u", 0, 1, 0, 0⟩).2.1 rfl,
   (saveIfNotExists_insert_iff_absent ⟨[("ab", ⟨"ab", "u", 0, 1, 0, 0⟩)]⟩
      ⟨"ab", "u2", 5, 9, 0, 0⟩).2.2 ⟨"ab", "u", 0, 1, 0, 0⟩ rfl⟩

/-- Claim C2 counterexample: at exactly `now == expiresAt` the code treats
the record as still valid, so `Resolve` succeeds instead of failing with
`Expired` as the claim requires (`IsExpired` uses a strict `After`). -/
theorem resolve_at_exact_expiry_counterexample :
    (Resolve ⟨[("abc", ⟨"abc", "http://example.com", 0, 100, 0, 0⟩)]⟩
        false "abc" 100 100).1 ≠ .error .Expired ∧
    (Resolve ⟨[("abc", ⟨"abc", "http://example.com", 0, 100, 0, 0⟩)]⟩
        false "abc" 100 100).1 = .ok "http://example.com" ∧
    (GetStats ⟨[("abc", ⟨"abc", "http://example.com", 0, 100, 0, 0⟩)]⟩
        false 100 "abc").1 = .ok ⟨"abc", "http://example.com", 0, 100, 0, 0⟩ :=
  ⟨by decide, by decide, by decide⟩

/-- Claim C2 (amended): a stored record with expiry instant `E` resolves
successfully (and `GetStats` succeeds) whenever `now <= E`, and both fail
with `Expired` whenever `now > E`: the validity interval is closed on the
right, `[createdAt, E]`, and `now == E` still counts as valid. -/
theorem resolve_expiry_boundary_amended (repo : MemoryRepository)
    (code : String) (r : URLRecord) (now nowIncr : Int)
    (h : lookupCode repo.data code = some r) :
    (now ≤ r.ExpiresAt →
      (Resolve repo false code now nowIncr).1 = .ok r.LongURL ∧
      (GetStats repo false now code).1 = .ok r) ∧
    (r.ExpiresAt < now →
      (Resolve repo false code now nowIncr).1 = .error .Expired ∧
      (GetStats repo false now code).1 = .error .Expired) := by
  have hf := find_present repo code r h
  constructor
  · intro hle
    have hexp : r.IsExpired now = false := by
      simp only [URLRecord.IsExpired, decide_eq_false_iff_not]
      omega
    constructor
    · simp only [Resolve, hf]
      rw [URLRecord.clone_eq]
      simp [hexp]
    · simp only [GetStats, hf]
      rw [URLRecord.clone_eq]
      simp [hexp]
  · intro hlt
    have hexp : r.IsExpired now = true := by
      simp only [URLRecord.IsExpired, decide_eq_true_eq]
      omega
    constructor
    · simp only [Resolve, hf]
      rw [URLRecord.clone_eq]
      simp [hexp]
    · simp only [GetStats, hf]
      rw [URLRecord.clone_eq]
      simp [hexp]

/-- Witness for the amended C2 at concrete inputs: at `now == expiresAt`
resolution still succeeds, and one instant later it fails with `Expired`. -/
theorem resolve_expiry_boundary_amended_witness :
    (Resolve ⟨[("xy", ⟨"xy", "http://e.com", 0, 100, 0, 0⟩)]⟩
        false "xy" 100 100).1 = .ok "http://e.com" ∧
    (Resolve ⟨[("xy", ⟨"xy", "http://e.com", 0, 100, 0, 0⟩)]⟩
        false "xy" 101 101).1 = .error .Expired :=
  ⟨((resolve_expiry_boundary_amended ⟨[("xy", ⟨"xy", "http://e.com", 0, 100, 0, 0⟩)]⟩
      "xy" ⟨"xy", "http://e.com", 0, 100, 0, 0⟩ 100 100 rfl).1 (by decide)).1,
   ((resolve_expiry_boundary_amended ⟨[("xy", ⟨"xy", "http://e.com", 0, 100, 0, 0⟩)]⟩
      "xy" ⟨"xy", "http://e.com", 0, 100, 0, 0⟩ 101 101 rfl).2 (by decide)).1⟩

/-- Claim C6: each of the four store operations, called with an
already-canceled cancellation signal, fails immediately with `Canceled`
and returns the store exactly as it was. -/
theorem canceled_operations_unchanged (repo : MemoryRepository)
    (record : URLRecord) (code : String) (accessTime before : Int) :
    repo.SaveIfNotExists true record = (.error .Canceled, repo) ∧
    repo.FindByShortCode true code = (.error .Canceled, repo) ∧
    repo.IncrementClickCount true code accessTime = (.error .Canceled, repo) ∧
    repo.DeleteExpired true before = (.error .Canceled, repo) :=
  ⟨rfl, rfl, rfl, rfl⟩

/-- Claim C10: `GetStats` never mutates the store, and repeating the call
in the resulting state returns the identical result. -/
theorem getStats_does_not_mutate (repo : MemoryRepository) (canceled : Bool)
    (now : Int) (code : String) :
    (GetStats repo canceled now code).2 = repo ∧
    GetStats (GetStats repo canceled now code).2 canceled now code
      = GetStats repo canceled now code := by
  have h2 : (GetStats repo canceled now code).2 = repo := by
    unfold GetStats
    cases hp : repo.FindByShortCode canceled code with
    | mk fst snd =>
      have hsnd : snd = repo := by
        have := findByShortCode_snd repo canceled code
        rw [hp] at this
        exact this
      cases fst with
      | error e => simp [hsnd]
      | ok record =>
        by_cases he : record.IsExpired now <;> simp [he, hsnd]
  exact ⟨h2, by rw [h2]⟩

/-- Claim C9: every generated token has exactly the fixed length 8 and
draws all its characters from the restricted alphabet, which contains none
of the ambiguous glyphs 0, O, 1, I, l. -/
theorem generate_token_shape (draw : Nat → Nat)
    (h : ∀ i, i < codeLength → draw i < alphabet.length) :
    (generate draw).length = codeLength ∧
    ∀ c ∈ (generate draw).toList,
      c ∈ alphabet.toList ∧ c ≠ '0' ∧ c ≠ 'O' ∧ c ≠ '1' ∧ c ≠ 'I' ∧ c ≠ 'l' := by
  constructor
  · show ((List.range codeLength).map
      fun i => alphabet.toList.getD (draw i) 'X').length = codeLength
    simp
  · intro c hc
    have hc2 : c ∈ (List.range codeLength).map
        (fun i => alphabet.toList.getD (draw i) 'X') := hc
    simp only [List.mem_map, List.mem_range] at hc2
    obtain ⟨i, hi, hgc⟩ := hc2
    have hdi : draw i < alphabet.toList.length := h i hi
    have hmem : c ∈ alphabet.toList := by
      rw [← hgc, List.getD_eq_getElem alphabet.toList 'X' hdi]
      exact List.getElem_mem hdi
    have hall : ∀ x ∈ alphabet.toList,
        x ≠ '0' ∧ x ≠ 'O' ∧ x ≠ '1' ∧ x ≠ 'I' ∧ x ≠ 'l' := by decide
    exact ⟨hmem, hall c hmem⟩

/-- Witness for C9 at a concrete draw oracle: the all-zero oracle produces
the 8-character token of first-alphabet characters. -/
theorem generate_token_shape_witness :
    (generate fun _ => 0).length = codeLength ∧
    ∀ c ∈ (generate fun _ => 0).toList,
      c ∈ alphabet.toList ∧ c ≠ '0' ∧ c ≠ 'O' ∧ c ≠ '1' ∧ c ≠ 'I' ∧ c ≠ 'l' :=
  generate_token_shape (fun _ => 0) (by decide)

/-- Claim C4: `DeleteExpired(T)` removes exactly the entries whose
`expiresAt` is strictly before `T`, keeps every other entry unmodified,
and returns the count of removed entries (0 on an empty store). -/
theorem deleteExpired_selectivity (repo : MemoryRepository) (before : Int) :
    (repo.DeleteExpired false before).1
      = .ok ((repo.data.length : Int)
          - ((repo.DeleteExpired false before).2.data.length : Int)) ∧
    (∀ p ∈ repo.data, before ≤ p.2.ExpiresAt →
        p ∈ (repo.DeleteExpired false before).2.data) ∧
    (∀ p ∈ repo.data, p.2.ExpiresAt < before →
        p ∉ (repo.DeleteExpired false before).2.data) ∧
    (∀ p ∈ (repo.DeleteExpired false before).2.data, p ∈ repo.data) ∧
    (MemoryRepository.DeleteExpired ⟨[]⟩ false before).1 = .ok 0 := by
  have h1 : (repo.DeleteExpired false before).1
      = .ok ((repo.data.filter fun p => decide (p.2.ExpiresAt < before)).length : Int) := by
    rw [delete_run]
  have h2 : (repo.DeleteExpired false before).2.data
      = repo.data.filter fun p => ! decide (p.2.ExpiresAt < before) := by
    rw [delete_run]
  refine ⟨?_, ?_, ?_, ?_, rfl⟩
  · rw [h1, h2]
    have hs := filter_length_split repo.data fun p => decide (p.2.ExpiresAt < before)
    congr 1
    omega
  · intro p hp hle
    rw [h2]
    refine List.mem_filter.mpr ⟨hp, ?_⟩
    have hnot : ¬ (p.2.ExpiresAt < before) := by omega
    simp [hnot]
  · intro p _ hlt hmem
    rw [h2] at hmem
    have := (List.mem_filter.mp hmem).2
    simp at this
    omega
  · intro p hp
    rw [h2] at hp
    exact (List.mem_filter.mp hp).1

/-- Witness for C4 at a concrete store: with entries expiring at −2 and −1
and entries expiring at 1 and 2, a sweep at 0 keeps a future entry and
drops a past one. -/
theorem deleteExpired_selectivity_witness :
    ("c", URLRecord.mk "c" "u3" 0 1 0 0)
      ∈ (MemoryRepository.DeleteExpired
          ⟨[("a", ⟨"a", "u1", 0, -2, 0, 0⟩), ("b", ⟨"b", "u2", 0, -1, 0, 0⟩),
            ("c", ⟨"c", "u3", 0, 1, 0, 0⟩), ("d", ⟨"d", "u4", 0, 2, 0, 0⟩)]⟩
          false 0).2.data ∧
    ("a", URLRecord.mk "a" "u1" 0 (-2) 0 0)
      ∉ (MemoryRepository.DeleteExpired
          ⟨[("a", ⟨"a", "u1", 0, -2, 0, 0⟩), ("b", ⟨"b", "u2", 0, -1, 0, 0⟩),
            ("c", ⟨"c", "u3", 0, 1, 0, 0⟩), ("d", ⟨"d", "u4", 0, 2, 0, 0⟩)]⟩
          false 0).2.data :=
  ⟨(deleteExpired_selectivity
      ⟨[("a", ⟨"a", "u1", 0, -2, 0, 0⟩), ("b", ⟨"b", "u2", 0, -1, 0, 0⟩),
        ("c", ⟨"c", "u3", 0, 1, 0, 0⟩), ("d", ⟨"d", "u4", 0, 2, 0, 0⟩)]⟩ 0).2.1
      ("c", ⟨"c", "u3", 0, 1, 0, 0⟩) (by decide) (by decide),
   (deleteExpired_selectivity
      ⟨[("a", ⟨"a", "u1", 0, -2, 0, 0⟩), ("b", ⟨"b", "u2", 0, -1, 0, 0⟩),
        ("c", ⟨"c", "u3", 0, 1, 0, 0⟩), ("d", ⟨"d", "u4", 0, 2, 0, 0⟩)]⟩ 0).2.2.1
      ("a", ⟨"a", "u1", 0, -2, 0, 0⟩) (by decide) (by decide)⟩

/-- Claim C5: when the key is present, `IncrementClickCount(key, at)`
adds exactly 1 to that entry's `ClickCount`, sets its `LastAccessedAt`
to `at`, changes no other field and no other key; when the key is absent
it fails with `NotFound` and leaves the store unchanged. -/
theorem incrementClickCount_frame (repo : MemoryRepository) (code : String)
    (accessTime : Int) :
    (∀ r, lookupCode repo.data code = some r →
      (repo.IncrementClickCount false code accessTime).1 = .ok () ∧
      lookupCode (repo.IncrementClickCount false code accessTime).2.data code
        = some { r with
                   ClickCount := r.ClickCount + 1
                   LastAccessedAt := accessTime } ∧
      ∀ c, c ≠ code →
        lookupCode (repo.IncrementClickCount false code accessTime).2.data c
          = lookupCode repo.data c) ∧
    (lookupCode repo.data code = none →
      repo.IncrementClickCount false code accessTime = (.error .NotFound, repo)) := by
  constructor
  · intro r hl
    have hrun := incr_present repo code accessTime r hl
    have hdata : (repo.IncrementClickCount false code accessTime).2.data
        = repo.data.map (fun p =>
            if p.1 = code then
              (p.1, { p.2 with
                        ClickCount := p.2.ClickCount + 1
                        LastAccessedAt := accessTime })
            else p) := by
      rw [hrun]
    refine ⟨by rw [hrun], ?_, ?_⟩
    · rw [hdata, lookupCode_map_update repo.data code code
        (fun u => { u with
                      ClickCount := u.ClickCount + 1
                      LastAccessedAt := accessTime })]
      rw [hl]
      simp
    · intro c hc
      rw [hdata, lookupCode_map_update repo.data code c
        (fun u => { u with
                      ClickCount := u.ClickCount + 1
                      LastAccessedAt := accessTime })]
      simp [hc]
  · exact incr_absent repo code accessTime

/-- Witness for C5 at a concrete store: the stored entry's counter goes
from 3 to 4, its access time becomes 7 and the other fields survive. -/
theorem incrementClickCount_frame_witness :
    (MemoryRepository.IncrementClickCount ⟨[("k", ⟨"k", "u", 0, 9, 3, 1⟩)]⟩
        false "k" 7).1 = .ok () ∧
    lookupCode (MemoryRepository.IncrementClickCount ⟨[("k", ⟨"k", "u", 0, 9, 3, 1⟩)]⟩
        false "k" 7).2.data "k" = some ⟨"k", "u", 0, 9, 4, 7⟩ :=
  ⟨((incrementClickCount_frame ⟨[("k", ⟨"k", "u", 0, 9, 3, 1⟩)]⟩ "k" 7).1
      ⟨"k", "u", 0, 9, 3, 1⟩ rfl).1,
   ((incrementClickCount_frame ⟨[("k", ⟨"k", "u", 0, 9, 3, 1⟩)]⟩ "k" 7).1
      ⟨"k", "u", 0, 9, 3, 1⟩ rfl).2.1⟩

/-- Claim C7: a found, unexpired key resolves to the stored long URL no
matter what the subsequent counter increment does (its error, the only
silently discarded one, never fails the resolve), and `Resolve` can only
fail with `NotFound`, `Expired` or `Canceled`. -/
theorem resolve_best_effort (repo : MemoryRepository) (canceled : Bool)
    (code : String) (now nowIncr : Int) :
    (∀ r, (repo.FindByShortCode canceled code).1 = .ok r →
        r.IsExpired now = false →
        (Resolve repo canceled code now nowIncr).1 = .ok r.LongURL) ∧
    (∀ findResult (n : Int) (i1 i2 : Except Err Unit),
        resolveFromResults findResult n i1 = resolveFromResults findResult n i2) ∧
    (∀ e, (Resolve repo canceled code now nowIncr).1 = .error e →
        e = .NotFound ∨ e = .Expired ∨ e = .Canceled) := by
  refine ⟨?_, ?_, ?_⟩
  · intro r hfind hexp
    unfold Resolve
    cases hp : repo.FindByShortCode canceled code with
    | mk fst snd =>
      rw [hp] at hfind
      cases fst with
      | error e => exact Except.noConfusion hfind
      | ok record =>
        have hr : record = r := Except.ok.inj hfind
        subst hr
        simp [hexp]
  · intro findResult n i1 i2
    unfold resolveFromResults
    cases findResult with
    | error e => rfl
    | ok record => by_cases he : record.IsExpired n <;> simp [he]
  · intro e herr
    unfold Resolve at herr
    cases hp : repo.FindByShortCode canceled code with
    | mk fst snd =>
      rw [hp] at herr
      cases fst with
      | error e2 =>
        simp at herr
        have hcase := findByShortCode_error_cases repo canceled code e2 (by rw [hp])
        rw [herr] at hcase
        rcases hcase with h | h
        · exact Or.inl h
        · exact Or.inr (Or.inr h)
      | ok record =>
        by_cases he : record.IsExpired now
        · simp [he] at herr
          exact Or.inr (Or.inl herr.symm)
        · simp [he] at herr

/-- Witness for C7 at a concrete store: a live entry resolves to its
stored URL. -/
theorem resolve_best_effort_witness :
    (Resolve ⟨[("cd", ⟨"cd", "http://w.com", 0, 100, 0, 0⟩)]⟩
        false "cd" 50 50).1 = .ok "http://w.com" :=
  (resolve_best_effort ⟨[("cd", ⟨"cd", "http://w.com", 0, 100, 0, 0⟩)]⟩
      false "cd" 50 50).1 ⟨"cd", "http://w.com", 0, 100, 0, 0⟩ (by decide) (by decide)

/-! ## Lemmas about the `Create` retry loop -/

theorem createAttempts_count_le (c : Bool) (gen : Nat → String) (longURL : String)
    (now ttl : Int) : ∀ (n : Nat) (repo : MemoryRepository) (attempt : Nat),
    (createAttempts c gen longURL now ttl repo attempt n).2 ≤ n := by
  intro n
  induction n with
  | zero => intro repo attempt; exact Nat.le_refl 0
  | succ n ih =>
    intro repo attempt
    simp only [createAttempts]
    cases hs : repo.SaveIfNotExists c (newRecord (gen attempt) longURL now ttl) with
    | mk fst snd =>
      cases fst with
      | ok u => exact Nat.succ_le_succ (Nat.zero_le n)
      | error e =>
        by_cases he : e = Err.CodeExists
        · subst he
          simp only [if_pos rfl]
          exact Nat.succ_le_succ (ih snd (attempt + 1))
        · simp only [if_neg he]
          exact Nat.succ_le_succ (Nat.zero_le n)

theorem createAttempts_ok_shape (gen : Nat → String) (longURL : String)
    (now ttl : Int) : ∀ (n : Nat) (repo : MemoryRepository) (attempt : Nat)
    (r : URLRecord),
    (createAttempts false gen longURL now ttl repo attempt n).1.1 = .ok r →
    (∃ k, attempt ≤ k ∧ k < attempt + n ∧ r = newRecord (gen k) longURL now ttl) ∧
    ((createAttempts false gen longURL now ttl repo attempt n).1.2).data
      = (r.ShortCode, r.Clone) :: repo.data := by
  intro n
  induction n with
  | zero => intro repo attempt r h; exact Except.noConfusion h
  | succ n ih =>
    intro repo attempt r h
    simp only [createAttempts] at h ⊢
    rcases hs : repo.SaveIfNotExists false (newRecord (gen attempt) longURL now ttl)
      with ⟨fst, snd⟩
    rw [hs] at h
    cases fst with
    | ok u =>
      have h2 : Except.ok (newRecord (gen attempt) longURL now ttl) = Except.ok r := h
      have hr := Except.ok.inj h2
      refine ⟨⟨attempt, Nat.le_refl _, by omega, hr.symm⟩, ?_⟩
      show snd.data = (r.ShortCode, r.Clone) :: repo.data
      rw [← hr]
      exact saveIfNotExists_ok_data repo snd false
        (newRecord (gen attempt) longURL now ttl) u hs
    | error e =>
      by_cases he : e = Err.CodeExists
      · subst he
        have h2 : (createAttempts false gen longURL now ttl snd (attempt + 1) n).1.1
            = Except.ok r := h
        have hframe := saveIfNotExists_error_frame repo snd false
          (newRecord (gen attempt) longURL now ttl) Err.CodeExists hs
        obtain ⟨⟨k, hk1, hk2, hk3⟩, hdata⟩ := ih snd (attempt + 1) r h2
        refine ⟨⟨k, by omega, by omega, hk3⟩, ?_⟩
        show ((createAttempts false gen longURL now ttl snd (attempt + 1) n).1.2).data
            = (r.ShortCode, r.Clone) :: repo.data
        rw [hdata, hframe]
      · have h2 : (if e = Err.CodeExists
            then ((createAttempts false gen longURL now ttl snd (attempt + 1) n).1,
                  (createAttempts false gen longURL now ttl snd (attempt + 1) n).2 + 1)
            else ((Except.error e, snd), 1)).1.1 = Except.ok r := h
        rw [if_neg he] at h2
        exact Except.noConfusion h2

theorem createAttempts_exhaust (gen : Nat → String) (longURL : String)
    (now ttl : Int) : ∀ (n : Nat) (repo : MemoryRepository) (attempt : Nat),
    (∀ k, attempt ≤ k → k < attempt + n → (lookupCode repo.data (gen k)).isSome = true) →
    createAttempts false gen longURL now ttl repo attempt n
      = ((.error .RetriesExhausted, repo), n) := by
  intro n
  induction n with
  | zero => intro repo attempt _; rfl
  | succ n ih =>
    intro repo attempt h
    have hk := h attempt (Nat.le_refl _) (by omega)
    obtain ⟨old, hold⟩ := Option.isSome_iff_exists.mp hk
    have hs := save_present repo (newRecord (gen attempt) longURL now ttl) old hold
    simp only [createAttempts]
    rw [hs]
    show ((createAttempts false gen longURL now ttl repo (attempt + 1) n).1,
          (createAttempts false gen longURL now ttl repo (attempt + 1) n).2 + 1)
        = ((.error .RetriesExhausted, repo), n + 1)
    rw [ih repo (attempt + 1) fun k h1 h2 => h k (by omega) (by omega)]

theorem createAttempts_canceled_run (gen : Nat → String) (longURL : String)
    (now ttl : Int) (n : Nat) (repo : MemoryRepository) (attempt : Nat)
    (h : 0 < n) :
    createAttempts true gen longURL now ttl repo attempt n
      = ((.error .Canceled, repo), 1) := by
  cases n with
  | zero => omega
  | succ m =>
    simp only [createAttempts]
    rw [save_canceled repo (newRecord (gen attempt) longURL now ttl)]
    rfl

/-- Claim C3: `Create` performs at most `maxRetries = 5` insert attempts;
every successful result is the record built from some attempt's generated
code with `createdAt = now` and `expiresAt = now + ttl` (with the 24h
default substituted for a zero TTL); if every attempt's code collides it
fails with `RetriesExhausted` after exactly 5 insert attempts and the
store is unchanged; and a non-collision store error (here: cancellation)
is propagated after a single attempt without retrying. -/
theorem create_retry_protocol (repo : MemoryRepository) (gen : Nat → String)
    (longURL : String) (ttl now : Int) :
    CreateSaveCalls repo false gen longURL ttl now ≤ maxRetries ∧
    (∀ r, (Create repo false gen longURL ttl now).1 = .ok r →
      ∃ k, k < maxRetries ∧
        r = newRecord (gen k) longURL now (if ttl = 0 then defaultTTL else ttl)) ∧
    ((∀ k, k < maxRetries → (lookupCode repo.data (gen k)).isSome = true) →
      Create repo false gen longURL ttl now = (.error .RetriesExhausted, repo) ∧
      CreateSaveCalls repo false gen longURL ttl now = maxRetries) ∧
    (Create repo true gen longURL ttl now = (.error .Canceled, repo) ∧
     CreateSaveCalls repo true gen longURL ttl now = 1) := by
  refine ⟨?_, ?_, ?_, ?_⟩
  · exact createAttempts_count_le false gen longURL now
      (if ttl = 0 then defaultTTL else ttl) maxRetries repo 0
  · intro r h
    obtain ⟨⟨k, _, hk2, hk3⟩, _⟩ := createAttempts_ok_shape gen longURL now
      (if ttl = 0 then defaultTTL else ttl) maxRetries repo 0 r h
    exact ⟨k, by omega, hk3⟩
  · intro hcoll
    have he := createAttempts_exhaust gen longURL now
      (if ttl = 0 then defaultTTL else ttl) maxRetries repo 0
      fun k _ h2 => hcoll k (by omega)
    constructor
    · unfold Create
      rw [he]
    · unfold CreateSaveCalls
      rw [he]
  · have hc := createAttempts_canceled_run gen longURL now
      (if ttl = 0 then defaultTTL else ttl) maxRetries repo 0 (by decide)
    constructor
    · unfold Create
      rw [hc]
    · unfold CreateSaveCalls
      rw [hc]

/-- Witness for C3 at concrete inputs: a constant generator whose code is
already taken makes `Create` fail with `RetriesExhausted` after exactly
`maxRetries` insert attempts, leaving the store unchanged. -/
theorem create_retry_protocol_witness :
    Create ⟨[("aa", ⟨"aa", "u", 0, 1, 0, 0⟩)]⟩ false (fun _ => "aa") "v" 0 0
      = (.error .RetriesExhausted, ⟨[("aa", ⟨"aa", "u", 0, 1, 0, 0⟩)]⟩) ∧
    CreateSaveCalls ⟨[("aa", ⟨"aa", "u", 0, 1, 0, 0⟩)]⟩ false (fun _ => "aa") "v" 0 0
      = maxRetries :=
  (create_retry_protocol ⟨[("aa", ⟨"aa", "u", 0, 1, 0, 0⟩)]⟩
    (fun _ => "aa") "v" 0 0).2.2.1 (by decide)

/-- Claim C8 counterexample: `Create` performs no TTL validation, so a
negative caller-supplied TTL (only zero is defaulted) yields a successful
creation whose stored record violates `expiresAt > createdAt`. -/
theorem create_negative_ttl_counterexample :
    (Create ⟨[]⟩ false (fun _ => "AAAAAAAA") "http://x" (-1) 0).1
      = .ok ⟨"AAAAAAAA", "http://x", 0, -1, 0, 0⟩ ∧
    ¬ ((URLRecord.mk "AAAAAAAA" "http://x" 0 (-1) 0 0).CreatedAt
        < (URLRecord.mk "AAAAAAAA" "http://x" 0 (-1) 0 0).ExpiresAt) :=
  ⟨by decide, by decide⟩

/-- Claim C8 (amended): for every `Create` call whose caller-supplied TTL
is nonnegative (zero selects the 24h default), a successful result
satisfies `expiresAt > createdAt`, and the record placed in the store is
exactly that returned record (prepended copy); a negative TTL escapes
validation and violates the invariant. -/
theorem create_expiry_invariant_amended (repo : MemoryRepository)
    (gen : Nat → String) (longURL : String) (ttl now : Int) (h : 0 ≤ ttl) :
    ∀ r, (Create repo false gen longURL ttl now).1 = .ok r →
      r.CreatedAt < r.ExpiresAt ∧
      (Create repo false gen longURL ttl now).2.data
        = (r.ShortCode, r.Clone) :: repo.data := by
  intro r hok
  unfold Create at hok ⊢
  obtain ⟨⟨k, _, _, hr⟩, hdata⟩ := createAttempts_ok_shape gen longURL now
    (if ttl = 0 then defaultTTL else ttl) maxRetries repo 0 r hok
  refine ⟨?_, hdata⟩
  rw [hr]
  show now < now + (if ttl = 0 then defaultTTL else ttl)
  by_cases h0 : ttl = 0
  · rw [if_pos h0]
    unfold defaultTTL
    omega
  · rw [if_neg h0]
    omega

/-- Witness for the amended C8: a zero TTL produces a record expiring 24h
after creation. -/
theorem create_expiry_invariant_amended_witness :
    (newRecord "BBBBBBBB" "http://x" 0 defaultTTL).CreatedAt
      < (newRecord "BBBBBBBB" "http://x" 0 defaultTTL).ExpiresAt :=
  ((create_expiry_invariant_amended ⟨[]⟩ (fun _ => "BBBBBBBB") "http://x" 0 0
      (by decide)) (newRecord "BBBBBBBB" "http://x" 0 defaultTTL) (by decide)).1

end UrlShortener
